import Mathlib

/-!
Verification of the file-cleaner core (`src/file-cleaner.py`).

The development shallowly embeds the rule-matching predicate, the
depth-bounded traversal, the deletion loop, the empty-directory sweep and
the orchestrating `main` function.  Filesystems are modelled as snapshots:
a list of entries (absolute paths as component lists, each tagged file or
directory) together with two failure sets, `locked` (paths whose removal
raises `OSError` / `PermissionError`) and `unreadable` (directories whose
`iterdir` raises).  The run is single-threaded and the model is the
static-snapshot semantics of the source: no external mutation happens
between enumeration and inspection.

Python regular expressions are modelled abstractly: a pattern is a flag
saying whether `re.compile` succeeds plus the boolean unanchored `search`
function of the compiled pattern.  Python `set[str]` values are modelled
as lists, which are membership-equivalent.  `str.lower` is modelled on
ASCII code points, which is the fragment exercised by the defaults and by
every claim.
-/

/-! ### Strings: `to_lower` and `pathlib` suffix extraction -/

/-- ASCII lowering of one character, the code-point arithmetic of
`str.lower` on the ASCII range (other characters are left unchanged). -/
def lowerChar (c : Char) : Char :=
  if 65 ≤ c.toNat ∧ c.toNat ≤ 90 then Char.ofNat (c.toNat + 32) else c

/-- `to_lower` from the source: `s.lower()`. -/
def to_lower (s : String) : String :=
  String.mk (s.data.map lowerChar)

/-- Character-list core of `pathlib`'s `suffix`: with `i` the index of
the last dot, the result is the tail from `i` when `0 < i < len - 1`,
else empty.  Computed from the reversed character list: `rpost` is the
reversed run of characters after the last dot. -/
def suffix_core (cs : List Char) : List Char :=
  let rcs := cs.reverse
  let rpost := rcs.takeWhile (fun c => c ≠ '.')
  match rcs.dropWhile (fun c => c ≠ '.') with
  | [] => []
  | _ :: rpre =>
    if rpre.isEmpty || rpost.isEmpty then []
    else '.' :: rpost.reverse

/-- `pathlib`'s `suffix` of a base name. -/
def path_suffix (name : String) : String :=
  String.mk (suffix_core name.data)

/-- Character-list core of the dot stripping in `Rules.matches`:
`if ext and ext[0] == chr 46: ext = ext[1:]`. -/
def strip_core (cs : List Char) : List Char :=
  match cs with
  | c :: rest => if c = '.' then rest else cs
  | [] => []

/-- The suffix with one leading dot stripped. -/
def strip_leading_dot (ext : String) : String :=
  String.mk (strip_core ext.data)

/-- The extension computed in `Rules.matches`: take the suffix, strip the
leading dot, lower-case the remainder. -/
def file_ext (name : String) : String :=
  to_lower (strip_leading_dot (path_suffix name))

/-! ### Filesystem snapshots -/

/-- An absolute path, as its list of components. -/
abbrev FsPath := List String

/-- One filesystem object: its path and whether it is a directory. -/
structure FSEntry where
  path : FsPath
  isDir : Bool
deriving DecidableEq, Repr

/-- A filesystem snapshot.  `locked` holds paths whose removal
(`unlink` / `rmdir` / `rmtree`) raises; `unreadable` holds directories
whose `iterdir` raises.  Both model `OSError` / `PermissionError`. -/
structure FS where
  entries : List FSEntry
  locked : List FsPath
  unreadable : List FsPath
deriving DecidableEq, Repr

/-- Render a path the way `str(path)` joins components. -/
def pathStr (p : FsPath) : String :=
  String.intercalate "/" p

/-- `path.name`: the final component. -/
def baseName (p : FsPath) : String :=
  (p.getLast?).getD (String.mk [])

/-- `p` is a proper ancestor of `q` (strict path prefix). -/
def isStrictPrefixB (p q : FsPath) : Bool :=
  p.isPrefixOf q && decide (p.length < q.length)

/-- `path.exists()` on the snapshot. -/
def FS.existsPath (fs : FS) (p : FsPath) : Bool :=
  fs.entries.any (fun e => e.path == p)

/-- `path.is_dir()` on the snapshot. -/
def FS.isDirAt (fs : FS) (p : FsPath) : Bool :=
  fs.entries.any (fun e => e.path == p && e.isDir)

/-- `path.is_file()` on the snapshot. -/
def FS.isFileAt (fs : FS) (p : FsPath) : Bool :=
  fs.entries.any (fun e => e.path == p && !e.isDir)

/-- Effect of `unlink` / `rmdir`: exactly the entry at `p` disappears. -/
def FS.removeExact (fs : FS) (p : FsPath) : FS :=
  { fs with entries := fs.entries.filter (fun e => e.path != p) }

/-- Effect of `shutil.rmtree p`: `p` and everything beneath it disappear. -/
def FS.removeTree (fs : FS) (p : FsPath) : FS :=
  { fs with entries := fs.entries.filter (fun e => !(e.path == p || isStrictPrefixB p e.path)) }

/-- `sum(1 for _ in t.rglob(star))`: the number of entries strictly
beneath `t`. -/
def count_under (fs : FS) (t : FsPath) : Nat :=
  (fs.entries.filter (fun e => isStrictPrefixB t e.path)).length

/-- `get_depth` from the source: `len(target.relative_to(base).parts)`,
and `0` when `relative_to` raises `ValueError` (base not an ancestor). -/
def get_depth (base target : FsPath) : Nat :=
  if base.isPrefixOf target then target.length - base.length else 0

/-- `is_dir_empty` from the source: `not any(path.iterdir())`, and
`False` when `iterdir` raises.  On a live (prefix-closed) filesystem a
directory has some entry inside it iff some snapshot entry lies strictly
beneath it, which is the reading used here. -/
def is_dir_empty (fs : FS) (p : FsPath) : Bool :=
  if fs.unreadable.contains p then false
  else !(fs.entries.any (fun e => isStrictPrefixB p e.path))

/-! ### Rules -/

/-- An abstract Python regular expression: whether `re.compile` of the
pattern string succeeds, and the boolean unanchored `search` of the
compiled pattern. -/
structure Regex where
  ok : Bool
  search : String → Bool

/-- The `Rules` object.  The two Python sets are modelled as lists
(membership-equivalent). -/
structure Rules where
  name_exact : List String
  ext_lower : List String
  regexes : List (String → Bool)

/-- `Rules.matches` from the source, taking the data it reads from the
path: the base name `path.name` and `path.is_file()`.  The three checks
in source order: exact-name, extension (files only; suffix with its
leading dot stripped, lower-cased, required non-empty), then each
pattern searched against the name. -/
def Rules.matches (r : Rules) (name : String) (is_file : Bool) : Bool :=
  if r.name_exact.contains name then
    true
  else if is_file && (!(file_ext name).isEmpty && r.ext_lower.contains (file_ext name)) then
    true
  else
    r.regexes.any (fun p => p name)

/-- The pattern-compiling loop of `make_rules`: on the first pattern that
does not compile the process exits with status 2. -/
def compile_patterns : List Regex → Except Nat (List (String → Bool))
  | [] => Except.ok []
  | p :: ps =>
    if p.ok then
      match compile_patterns ps with
      | Except.ok fs => Except.ok (p.search :: fs)
      | Except.error c => Except.error c
    else Except.error 2

/-- `make_rules` from the source: names are stored verbatim, extensions
are stored lower-cased, patterns are compiled (exit 2 on failure). -/
def make_rules (names exts : List String) (patterns : List Regex) : Except Nat Rules :=
  match compile_patterns patterns with
  | Except.error c => Except.error c
  | Except.ok regexes =>
    Except.ok { name_exact := names, ext_lower := exts.map to_lower, regexes := regexes }

/-! ### Scanner -/

/-- `find_targets` from the source.  `root.rglob(star)` enumerates every
snapshot entry strictly beneath `root`, in snapshot order; for each one
the loop applies (in order) the depth filter, the `item.exists()`
re-check and the rule predicate, each `continue`-ing on failure. -/
def find_targets (fs : FS) (root : FsPath) (rules : Rules) (max_depth : Option Nat) : List FsPath :=
  (fs.entries.filter (fun e =>
    isStrictPrefixB root e.path
    && (match max_depth with
        | some d => decide (get_depth root e.path ≤ d)
        | none => true)
    && fs.existsPath e.path
    && rules.matches (baseName e.path) (!e.isDir))).map FSEntry.path

/-! ### Deleter (the deletion loop inside `main`) -/

/-- One per-item removal line; the source appends the textual `OSError`
to failure lines, which the model elides. -/
def removed_dir_line (t : FsPath) (n : Nat) : String :=
  "removed dir " ++ pathStr t ++ " (" ++ toString n ++ " item(s))"

/-- Success line for a plain file removal. -/
def removed_file_line (t : FsPath) : String :=
  "removed file " ++ pathStr t

/-- Failure line of the `except` arm of the deletion loop. -/
def failed_line (t : FsPath) : String :=
  "error: failed to remove " ++ pathStr t

/-- Result of the deletion loop: final filesystem, count of successful
removals, count of caught per-entry failures (executions of the `except`
arm), and the lines printed. -/
structure DelResult where
  fs : FS
  removed : Nat
  failed : Nat
  lines : List String
deriving DecidableEq, Repr

/-- One iteration of the deletion loop.  `t.is_dir()` is false for a
vanished path, so the loop then attempts `t.unlink()`, which raises
(caught) when the path is gone or locked; `shutil.rmtree` raises
(caught) on a locked path. -/
def delete_one (fs : FS) (t : FsPath) : DelResult :=
  if fs.isDirAt t then
    if fs.locked.contains t then
      { fs := fs, removed := 0, failed := 1, lines := [failed_line t] }
    else
      { fs := fs.removeTree t, removed := 1, failed := 0,
        lines := [removed_dir_line t (count_under fs t + 1)] }
  else if fs.isFileAt t && !(fs.locked.contains t) then
    { fs := fs.removeExact t, removed := 1, failed := 0, lines := [removed_file_line t] }
  else
    { fs := fs, removed := 0, failed := 1, lines := [failed_line t] }

/-- The deletion loop over the target list, in list order. -/
def delete_targets (fs : FS) : List FsPath → DelResult
  | [] => { fs := fs, removed := 0, failed := 0, lines := [] }
  | t :: ts =>
    let s := delete_one fs t
    let rest := delete_targets s.fs ts
    { fs := rest.fs, removed := s.removed + rest.removed,
      failed := s.failed + rest.failed, lines := s.lines ++ rest.lines }

/-! ### Empty-directory sweep -/

/-- Line printed for each pruned directory. -/
def removed_empty_line (d : FsPath) : String :=
  "removed empty dir " ++ pathStr d

/-- Result of the sweep: final filesystem, `emptied` count, lines. -/
structure SweepResult where
  fs : FS
  emptied : Nat
  lines : List String
deriving DecidableEq, Repr

/-- One iteration of the sweep loop: re-check emptiness now, skip the
root, `rmdir` (whose failure is swallowed, without incrementing or
printing). -/
def sweep_step (root : FsPath) (fs : FS) (d : FsPath) : SweepResult :=
  if is_dir_empty fs d && d != root then
    if fs.locked.contains d then { fs := fs, emptied := 0, lines := [] }
    else { fs := fs.removeExact d, emptied := 1, lines := [removed_empty_line d] }
  else { fs := fs, emptied := 0, lines := [] }

/-- The sweep loop over an already-sorted directory list. -/
def sweep_dirs (root : FsPath) (fs : FS) : List FsPath → SweepResult
  | [] => { fs := fs, emptied := 0, lines := [] }
  | d :: ds =>
    let s := sweep_step root fs d
    let rest := sweep_dirs root s.fs ds
    { fs := rest.fs, emptied := s.emptied + rest.emptied, lines := s.lines ++ rest.lines }

/-- Stable insertion for the descending sort on `len(str(p))`: an element
is placed after every already-placed element whose key is ≥ its own, which
is the order Python's stable `sort(key=..., reverse=True)` produces. -/
def insert_by_len_desc (x : FsPath) : List FsPath → List FsPath
  | [] => [x]
  | y :: ys =>
    if (pathStr x).length ≤ (pathStr y).length then y :: insert_by_len_desc x ys
    else x :: y :: ys

/-- `dirs.sort(key=len(str(p)), reverse=True)`. -/
def sort_by_len_desc (l : List FsPath) : List FsPath :=
  l.foldl (fun acc x => insert_by_len_desc x acc) []

/-- `remove_empty_dirs` from the source: collect every directory beneath
`root`, sort deepest-first by rendered-path length, then run the sweep
loop. -/
def remove_empty_dirs (fs : FS) (root : FsPath) : SweepResult :=
  let dirs := (fs.entries.filter (fun e => isStrictPrefixB root e.path && e.isDir)).map FSEntry.path
  sweep_dirs root fs (sort_by_len_desc dirs)

/-! ### Orchestrator (`main`) -/

/-- Command-line arguments after parsing (the argparse layer itself is an
external collaborator). -/
structure Args where
  yes : Bool
  no_prompt : Bool
  remove_empty_dirs : Bool
  max_depth : Option Nat
  names : List String
  exts : List String
  patterns : List Regex

/-- How `main` finishes: a `return` statement, or a call to `exit`. -/
inductive Outcome where
  | ret (code : Nat)
  | exited (code : Nat)
deriving DecidableEq, Repr

/-- A whole run: how `main` finished, the final filesystem, and the lines
printed to the console. -/
structure RunResult where
  outcome : Outcome
  fs : FS
  output : List String
deriving DecidableEq, Repr

/-- ASCII apostrophe, by code point. -/
def apos : String :=
  String.singleton (Char.ofNat 39)

/-- The closing slogan line. -/
def clean_line : String :=
  "you" ++ apos ++ "re all clean! for now..."

/-- Line printed when the scan finds nothing. -/
def none_found_line : String :=
  "no matching junk found. you" ++ apos ++ "re all clean! for now..."

/-- Header of the match list. -/
def found_header (n : Nat) : String :=
  "found " ++ toString n ++ " target(s):"

/-- One line of the match list. -/
def target_line (t : FsPath) : String :=
  "  " ++ pathStr t

/-- Dry-run notice (printed when `--yes` is absent). -/
def dry_run_line : String :=
  "\ndry-run only. use --yes to delete. add --no-prompt to skip confirmation."

/-- Fatal-error line: missing root. -/
def err_not_exist_line (root : FsPath) : String :=
  "error: path does not exist: " ++ pathStr root

/-- Fatal-error line: root is not a directory. -/
def err_not_dir_line (root : FsPath) : String :=
  "error: not a directory: " ++ pathStr root

/-- Fatal-error line printed by `make_rules` before `exit(2)`; the source
includes the offending pattern and the `re.error` text. -/
def err_regex_line : String :=
  "error: invalid regex"

/-- Summary line printed when `--remove-empty-dirs` was given. -/
def done_prune_line (removed emptied : Nat) : String :=
  "done. removed " ++ toString removed ++ " target(s), plus " ++ toString emptied
    ++ " empty directorie(s).\n"

/-- Summary line printed otherwise. -/
def done_line (removed : Nat) : String :=
  "done. removed " ++ toString removed ++ " target(s).\n"

/-- Category defaults, applied independently when the caller supplied
none for the category. -/
def default_names : List String := ["__pycache__", ".DS_Store"]

/-- Default extensions. -/
def default_exts : List String := ["log", "tmp"]

/-- Names after defaulting. -/
def eff_names (args : Args) : List String :=
  if args.names.isEmpty then default_names else args.names

/-- Extensions after defaulting. -/
def eff_exts (args : Args) : List String :=
  if args.exts.isEmpty then default_exts else args.exts

/-- `main` from the source, over a filesystem snapshot (named `main_run`
because Lean reserves `main` for executables).  `root` is the
already-resolved path; `confirm_answer` is the yes/no the interactive
`confirm` would return if consulted. -/
def main_run (fsys : FS) (root : FsPath) (args : Args) (confirm_answer : Bool) : RunResult :=
  if !(fsys.existsPath root) then
    { outcome := Outcome.ret 1, fs := fsys, output := [err_not_exist_line root] }
  else if !(fsys.isDirAt root) then
    { outcome := Outcome.ret 1, fs := fsys, output := [err_not_dir_line root] }
  else
    match make_rules (eff_names args) (eff_exts args) args.patterns with
    | Except.error c => { outcome := Outcome.exited c, fs := fsys, output := [err_regex_line] }
    | Except.ok rules =>
      let targets := find_targets fsys root rules args.max_depth
      if targets.isEmpty then
        { outcome := Outcome.ret 0, fs := fsys, output := [none_found_line] }
      else
        let header := found_header targets.length :: targets.map target_line
        let proceed := if args.yes && !args.no_prompt then confirm_answer else args.yes
        let pre := if !args.yes then header ++ [dry_run_line] else header
        if proceed then
          let del := delete_targets fsys targets
          if args.remove_empty_dirs then
            let sw := remove_empty_dirs del.fs root
            { outcome := Outcome.ret 0, fs := sw.fs,
              output := pre ++ del.lines ++ sw.lines
                ++ [done_prune_line del.removed sw.emptied, clean_line] }
          else
            { outcome := Outcome.ret 0, fs := del.fs,
              output := pre ++ del.lines ++ [done_line del.removed, clean_line] }
        else
          { outcome := Outcome.ret 0, fs := fsys, output := pre }

/-- The module entry (`if __name__ == "__main__": main()`): the value
`main` returns is discarded, so the process exit status is `0` unless
`exit` was called inside `main`. -/
def process_exit (o : Outcome) : Nat :=
  match o with
  | Outcome.ret _ => 0
  | Outcome.exited c => c

/-! ### Concrete fixtures (used by witnesses and counterexamples) -/

/-- The worked example of the spec: a root with `notes.txt`, `cache.tmp`,
`__pycache__/` (with a file inside) and `build/debug.log`. -/
def exFS : FS :=
  { entries := [
      { path := ["r"], isDir := true },
      { path := ["r", "notes.txt"], isDir := false },
      { path := ["r", "cache.tmp"], isDir := false },
      { path := ["r", "__pycache__"], isDir := true },
      { path := ["r", "__pycache__", "m.pyc"], isDir := false },
      { path := ["r", "build"], isDir := true },
      { path := ["r", "build", "debug.log"], isDir := false }],
    locked := [], unreadable := [] }

/-- The rules produced by `make_rules` on the default configuration. -/
def exRules : Rules :=
  { name_exact := default_names, ext_lower := default_exts, regexes := [] }

/-- A preview-mode invocation (all flags off, default rules). -/
def argsPreview : Args :=
  { yes := false, no_prompt := false, remove_empty_dirs := false,
    max_depth := none, names := [], exts := [], patterns := [] }

/-- An acting, non-interactive invocation with pruning, selecting `tmp`
files only. -/
def argsAct : Args :=
  { yes := true, no_prompt := true, remove_empty_dirs := true,
    max_depth := none, names := ["zzz"], exts := ["tmp"], patterns := [] }

/-- `argsPreview` plus one pattern string that does not compile. -/
def argsBadPattern : Args :=
  { argsPreview with patterns := [{ ok := false, search := fun _ => false }] }

/-- The empty filesystem (so any root path is missing). -/
def emptyFS : FS :=
  { entries := [], locked := [], unreadable := [] }

/-- A snapshot where the root path exists but is a plain file. -/
def fileRootFS : FS :=
  { entries := [{ path := ["r"], isDir := false }], locked := [], unreadable := [] }

/-- The spec's `a/b/c` pruning scenario after `c` was emptied. -/
def abcFS : FS :=
  { entries := [
      { path := ["a"], isDir := true },
      { path := ["a", "b"], isDir := true },
      { path := ["a", "b", "c"], isDir := true }],
    locked := [], unreadable := [] }

/-- `abcFS` after the sweep: only the scan root `a` survives. -/
def abcAfterFS : FS :=
  { entries := [{ path := ["a"], isDir := true }], locked := [], unreadable := [] }

/-- A run with one removable `tmp` file. -/
def oneTmpFS : FS :=
  { entries := [
      { path := ["r"], isDir := true },
      { path := ["r", "a.tmp"], isDir := false }],
    locked := [], unreadable := [] }

/-- A run with the same removable `tmp` file plus a locked one, so one
removal fails. -/
def lockedTmpFS : FS :=
  { entries := [
      { path := ["r"], isDir := true },
      { path := ["r", "a.tmp"], isDir := false },
      { path := ["r", "b.tmp"], isDir := false }],
    locked := [["r", "b.tmp"]], unreadable := [] }

/-- A snapshot with one unreadable (unlistable) directory under the root. -/
def unreadableFS : FS :=
  { entries := [
      { path := ["r"], isDir := true },
      { path := ["r", "u"], isDir := true }],
    locked := [], unreadable := [["r", "u"]] }

/-- A parent directory with a separately-matched child inside it. -/
def parentChildFS : FS :=
  { entries := [
      { path := ["r"], isDir := true },
      { path := ["r", "d"], isDir := true },
      { path := ["r", "d", "x.tmp"], isDir := false }],
    locked := [], unreadable := [] }

/-! ### Basic lemmas about the snapshot model -/

theorem existsPath_of_mem (fs : FS) (e : FSEntry) (h : e ∈ fs.entries) :
    fs.existsPath e.path = true := by
  simp only [FS.existsPath, List.any_eq_true]
  exact ⟨e, h, by simp⟩

theorem isStrictPrefixB_irrefl (p : FsPath) : isStrictPrefixB p p = false := by
  simp [isStrictPrefixB]

/-! ### C1 -/

/-- C1: for every entry and every rule set, `Rules.matches` returns true
iff the base name is in the exact-name set, or the entry is a file whose
lower-cased extension (leading dot removed) is a non-empty member of the
extension set, or some compiled pattern's unanchored search matches the
base name; otherwise (in particular when all three criteria are empty) it
returns false. -/
theorem matches_characterization (r : Rules) (name : String) (is_file : Bool) :
    r.matches name is_file = true ↔
      (name ∈ r.name_exact
       ∨ (is_file = true ∧ file_ext name ≠ "" ∧ file_ext name ∈ r.ext_lower)
       ∨ ∃ p ∈ r.regexes, p name = true) := by
  unfold Rules.matches
  split
  · next h =>
    simp only [true_iff]
    exact Or.inl (List.elem_iff.mp h)
  · next h1 =>
    split
    · next h2 =>
      simp only [true_iff]
      simp only [Bool.and_eq_true] at h2
      obtain ⟨hf, hne, hc⟩ := h2
      refine Or.inr (Or.inl ⟨hf, ?_, List.elem_iff.mp hc⟩)
      intro he
      rw [he] at hne
      exact absurd hne (by decide)
    · next h2 =>
      rw [List.any_eq_true]
      constructor
      · exact fun hx => Or.inr (Or.inr hx)
      · intro h
        rcases h with hname | ⟨hf, hne, hc⟩ | hreg
        · exact absurd (List.elem_iff.mpr hname) h1
        · exfalso
          apply h2
          rw [hf]
          simp only [Bool.true_and, Bool.and_eq_true]
          refine ⟨?_, List.elem_iff.mpr hc⟩
          simp only [Bool.not_eq_true']
          cases hb : (file_ext name).isEmpty
          · rfl
          · exact absurd ((String.isEmpty_iff (file_ext name)).mp hb) hne
        · exact hreg

/-- Witness for C1 at concrete inputs: the default rules match
`.DS_Store` by exact name. -/
theorem matches_characterization_witness :
    exRules.matches ".DS_Store" false = true :=
  (matches_characterization exRules ".DS_Store" false).mpr (Or.inl (by decide))

/-! ### C8 -/

/-- C8: the scan root itself is never returned by `find_targets`, for any
snapshot, rule set and depth bound. -/
theorem find_targets_excludes_root (fs : FS) (root : FsPath) (rules : Rules) (md : Option Nat) :
    root ∉ find_targets fs root rules md := by
  intro hmem
  unfold find_targets at hmem
  rcases List.mem_map.mp hmem with ⟨e, he, hep⟩
  have hc := (List.mem_filter.mp he).2
  simp only [Bool.and_eq_true] at hc
  have hsp := hc.1.1.1
  rw [hep] at hsp
  rw [isStrictPrefixB_irrefl] at hsp
  exact Bool.false_ne_true hsp

/-- Witness for C8: the example root is absent from its own scan even
though rules match entries beneath it. -/
theorem find_targets_excludes_root_witness :
    ["r"] ∉ find_targets exFS ["r"] exRules none :=
  find_targets_excludes_root exFS ["r"] exRules none

/-! ### C4 -/

theorem isStrictPrefixB_isPrefixOf {p q : FsPath} (h : isStrictPrefixB p q = true) :
    p.isPrefixOf q = true := by
  simp only [isStrictPrefixB, Bool.and_eq_true] at h
  exact h.1

theorem get_depth_of_ancestor (base target : FsPath) (h : base.isPrefixOf target = true) :
    get_depth base target = target.length - base.length := by
  unfold get_depth
  simp [h]

/-- C4: `find_targets` returns exactly the entries strictly beneath the
root whose component-count depth does not exceed the bound (when one is
given) and which match the rules; membership is decided entry by entry,
so depth filtering and directory matches never prune other entries. -/
theorem find_targets_characterization (fs : FS) (root : FsPath) (rules : Rules)
    (md : Option Nat) (p : FsPath) :
    p ∈ find_targets fs root rules md ↔
      ∃ e ∈ fs.entries, e.path = p ∧ isStrictPrefixB root p = true ∧
        (∀ d, md = some d → p.length - root.length ≤ d) ∧
        rules.matches (baseName p) (!e.isDir) = true := by
  unfold find_targets
  rw [List.mem_map]
  constructor
  · rintro ⟨e, he, hep⟩
    rw [List.mem_filter] at he
    obtain ⟨hmem, hcond⟩ := he
    simp only [Bool.and_eq_true] at hcond
    obtain ⟨⟨⟨hsp, hdep⟩, _hex⟩, hmat⟩ := hcond
    subst hep
    refine ⟨e, hmem, rfl, hsp, ?_, hmat⟩
    intro d hd
    rw [hd] at hdep
    have hd2 := of_decide_eq_true hdep
    rwa [get_depth_of_ancestor root e.path (isStrictPrefixB_isPrefixOf hsp)] at hd2
  · rintro ⟨e, hmem, hep, hsp, hdep, hmat⟩
    refine ⟨e, ?_, hep⟩
    rw [List.mem_filter]
    refine ⟨hmem, ?_⟩
    subst hep
    simp only [Bool.and_eq_true]
    refine ⟨⟨⟨hsp, ?_⟩, existsPath_of_mem fs e hmem⟩, hmat⟩
    cases md with
    | none => rfl
    | some d =>
      apply decide_eq_true
      rw [get_depth_of_ancestor root e.path (isStrictPrefixB_isPrefixOf hsp)]
      exact hdep d rfl

/-- Witness for C4: in the example tree, `build/debug.log` (depth 2) is
selected with bound 2 via the characterization, applied concretely. -/
theorem find_targets_characterization_witness :
    ["r", "build", "debug.log"] ∈ find_targets exFS ["r"] exRules (some 2) :=
  (find_targets_characterization exFS ["r"] exRules (some 2) ["r", "build", "debug.log"]).mpr
    ⟨{ path := ["r", "build", "debug.log"], isDir := false }, by decide, rfl, by decide,
      fun d hd => by cases hd; decide, by decide⟩

/-! ### C2 -/

/-- C2: with `--yes` absent the run never mutates the snapshot, whatever
matched; and on the happy path (valid root, compiling rules, non-empty
match set) the console output is exactly the match list followed by the
dry-run notice — the run stops there. -/
theorem preview_never_mutates (fs : FS) (root : FsPath) (args : Args) (ans : Bool)
    (h : args.yes = false) :
    (main_run fs root args ans).fs = fs
    ∧ (∀ rules, fs.existsPath root = true → fs.isDirAt root = true →
        make_rules (eff_names args) (eff_exts args) args.patterns = Except.ok rules →
        find_targets fs root rules args.max_depth ≠ [] →
        (main_run fs root args ans).output
          = (found_header (find_targets fs root rules args.max_depth).length
              :: (find_targets fs root rules args.max_depth).map target_line)
            ++ [dry_run_line]) := by
  constructor
  · simp only [main_run, h, Bool.false_and, Bool.not_false, if_true, Bool.false_eq_true,
      if_false]
    split
    · rfl
    · split
      · rfl
      · split
        · rfl
        · split
          · rfl
          · rfl
  · intro rules hex hdir hmk hne
    have hempty : (find_targets fs root rules args.max_depth).isEmpty = false := by
      cases hfe : find_targets fs root rules args.max_depth
      · exact absurd hfe hne
      · rfl
    simp only [main_run, hex, hdir, hmk, hempty, h, Bool.not_true, Bool.false_eq_true,
      if_false, Bool.false_and, Bool.not_false, if_true]

/-- Witness for C2: the preview run on the example tree leaves the
snapshot untouched and ends with the dry-run notice. -/
theorem preview_never_mutates_witness :
    (main_run exFS ["r"] argsPreview true).fs = exFS
    ∧ (main_run exFS ["r"] argsPreview true).output
        = (found_header (find_targets exFS ["r"] exRules none).length
            :: (find_targets exFS ["r"] exRules none).map target_line) ++ [dry_run_line] := by
  have h := preview_never_mutates exFS ["r"] argsPreview true rfl
  exact ⟨h.1, h.2 exRules (by decide) (by decide) rfl (by decide)⟩

/-! ### C3 -/

theorem delete_one_counts (fs : FS) (t : FsPath) :
    (delete_one fs t).removed + (delete_one fs t).failed = 1
    ∧ (delete_one fs t).lines.length = 1 := by
  unfold delete_one
  split
  · split
    · exact ⟨rfl, rfl⟩
    · exact ⟨rfl, rfl⟩
  · split
    · exact ⟨rfl, rfl⟩
    · exact ⟨rfl, rfl⟩

theorem delete_targets_total (fs : FS) (ts : List FsPath) :
    (delete_targets fs ts).removed + (delete_targets fs ts).failed = ts.length
    ∧ (delete_targets fs ts).lines.length = ts.length := by
  induction ts generalizing fs with
  | nil => exact ⟨rfl, rfl⟩
  | cons t ts ih =>
    have h1 := delete_one_counts fs t
    have h2 := ih (delete_one fs t).fs
    simp only [delete_targets, List.length_append, List.length_cons]
    constructor
    · omega
    · omega

theorem removeTree_kills (fs : FS) (p c : FsPath) (h : isStrictPrefixB p c = true) :
    (fs.removeTree p).isDirAt c = false ∧ (fs.removeTree p).isFileAt c = false := by
  have key : ∀ e : FSEntry, e ∈ (fs.removeTree p).entries → (e.path == c) = false := by
    intro e he
    simp only [FS.removeTree] at he
    rw [List.mem_filter] at he
    obtain ⟨_, hcond⟩ := he
    cases hbe : e.path == c
    · rfl
    · exfalso
      have hec : e.path = c := eq_of_beq hbe
      rw [hec, h] at hcond
      simp at hcond
  constructor
  · simp only [FS.isDirAt, List.any_eq_false]
    intro e he
    rw [key e he]
    simp
  · simp only [FS.isFileAt, List.any_eq_false]
    intro e he
    rw [key e he]
    simp

/-- C3: the deletion loop is failure-tolerant: every entry in the batch
is attempted and produces exactly one report line (successes and caught
failures add up to the batch length — no failure aborts the rest); and
removing a matched parent directory followed by the attempt on its
separately-matched child is one successful tree removal plus one caught
"already gone" failure. -/
theorem delete_batch_tolerant (fs : FS) (ts : List FsPath) (p c : FsPath)
    (hdir : fs.isDirAt p = true) (hlock : fs.locked.contains p = false)
    (hpc : isStrictPrefixB p c = true) (_hc : fs.existsPath c = true) :
    ((delete_targets fs ts).removed + (delete_targets fs ts).failed = ts.length
      ∧ (delete_targets fs ts).lines.length = ts.length)
    ∧ delete_targets fs [p, c]
        = { fs := fs.removeTree p, removed := 1, failed := 1,
            lines := [removed_dir_line p (count_under fs p + 1), failed_line c] } := by
  refine ⟨delete_targets_total fs ts, ?_⟩
  have h1 : delete_one fs p
      = { fs := fs.removeTree p, removed := 1, failed := 0,
          lines := [removed_dir_line p (count_under fs p + 1)] } := by
    unfold delete_one
    rw [if_pos hdir, if_neg]
    rw [hlock]
    exact Bool.false_ne_true
  have hkills := removeTree_kills fs p c hpc
  have h2 : delete_one (fs.removeTree p) c
      = { fs := fs.removeTree p, removed := 0, failed := 1, lines := [failed_line c] } := by
    unfold delete_one
    rw [if_neg, if_neg]
    · rw [hkills.2]
      simp
    · rw [hkills.1]
      exact Bool.false_ne_true
  show delete_targets fs [p, c] = _
  simp only [delete_targets, h1, h2]
  rfl

/-- Witness for C3: deleting the matched parent `r/d` and then its
separately-matched child `r/d/x.tmp` yields one success and one caught
failure. -/
theorem delete_batch_tolerant_witness :
    (((delete_targets parentChildFS [["r", "d"], ["r", "d", "x.tmp"]]).removed
        + (delete_targets parentChildFS [["r", "d"], ["r", "d", "x.tmp"]]).failed
        = ([["r", "d"], ["r", "d", "x.tmp"]] : List FsPath).length)
      ∧ (delete_targets parentChildFS [["r", "d"], ["r", "d", "x.tmp"]]).lines.length
        = ([["r", "d"], ["r", "d", "x.tmp"]] : List FsPath).length)
    ∧ delete_targets parentChildFS [["r", "d"], ["r", "d", "x.tmp"]]
        = { fs := parentChildFS.removeTree ["r", "d"], removed := 1, failed := 1,
            lines := [removed_dir_line ["r", "d"] (count_under parentChildFS ["r", "d"] + 1),
              failed_line ["r", "d", "x.tmp"]] } :=
  delete_batch_tolerant parentChildFS [["r", "d"], ["r", "d", "x.tmp"]]
    ["r", "d"] ["r", "d", "x.tmp"] (by decide) (by decide) (by decide) (by decide)

/-! ### C5 -/

theorem sweep_step_cases (root : FsPath) (fs : FS) (d : FsPath) :
    sweep_step root fs d = { fs := fs, emptied := 0, lines := [] }
    ∨ (is_dir_empty fs d = true
        ∧ sweep_step root fs d
            = { fs := fs.removeExact d, emptied := 1, lines := [removed_empty_line d] }) := by
  unfold sweep_step
  split
  · next hg =>
    simp only [Bool.and_eq_true] at hg
    split
    · exact Or.inl rfl
    · exact Or.inr ⟨hg.1, rfl⟩
  · exact Or.inl rfl

theorem sweep_step_entries_sub (root : FsPath) (fs : FS) (d : FsPath) :
    ∀ e ∈ (sweep_step root fs d).fs.entries, e ∈ fs.entries := by
  intro e he
  rcases sweep_step_cases root fs d with hid | ⟨_, hrem⟩
  · rw [hid] at he
    exact he
  · rw [hrem] at he
    exact (List.mem_filter.mp he).1

theorem sweep_dirs_entries_sub (root : FsPath) (ds : List FsPath) :
    ∀ (fs : FS), ∀ e ∈ (sweep_dirs root fs ds).fs.entries, e ∈ fs.entries := by
  induction ds with
  | nil => intro fs e he; exact he
  | cons d0 ds ih =>
    intro fs e he
    simp only [sweep_dirs] at he
    exact sweep_step_entries_sub root fs d0 e (ih (sweep_step root fs d0).fs e he)

theorem existsPath_removeExact_ne (fs : FS) (d q : FsPath) (h : q ≠ d) :
    (fs.removeExact d).existsPath q = fs.existsPath q := by
  simp only [FS.existsPath, FS.removeExact]
  rw [Bool.eq_iff_iff]
  simp only [List.any_eq_true, List.mem_filter]
  constructor
  · rintro ⟨e, ⟨he, _⟩, hq⟩
    exact ⟨e, he, hq⟩
  · rintro ⟨e, he, hq⟩
    refine ⟨e, ⟨he, ?_⟩, hq⟩
    have heq : e.path = q := eq_of_beq hq
    rw [heq]
    exact bne_iff_ne.mpr h

theorem sweep_step_at_root (root : FsPath) (fs : FS) :
    sweep_step root fs root = { fs := fs, emptied := 0, lines := [] } := by
  unfold sweep_step
  rw [if_neg]
  simp

theorem sweep_dirs_keeps_root (root : FsPath) (ds : List FsPath) :
    ∀ fs : FS, fs.existsPath root = true → (sweep_dirs root fs ds).fs.existsPath root = true := by
  induction ds with
  | nil => intro fs h; exact h
  | cons d0 ds ih =>
    intro fs h
    simp only [sweep_dirs]
    apply ih
    by_cases hd : d0 = root
    · subst hd
      rw [sweep_step_at_root]
      exact h
    · rcases sweep_step_cases root fs d0 with hid | ⟨_, hrem⟩
      · rw [hid]
        exact h
      · rw [hrem]
        show (fs.removeExact d0).existsPath root = true
        rw [existsPath_removeExact_ne fs d0 root (fun hrd => hd hrd.symm)]
        exact h

theorem sweep_dirs_removed_was_empty (root : FsPath) (ds : List FsPath) :
    ∀ (fs : FS) (d : FsPath), fs.existsPath d = true →
      (sweep_dirs root fs ds).fs.existsPath d = false →
      ∀ e ∈ (sweep_dirs root fs ds).fs.entries, isStrictPrefixB d e.path = false := by
  induction ds with
  | nil =>
    intro fs d h1 h2
    simp only [sweep_dirs] at h2
    rw [h1] at h2
    exact Bool.noConfusion h2
  | cons d0 ds ih =>
    intro fs d h1 h2
    simp only [sweep_dirs] at h2 ⊢
    by_cases hd : (sweep_step root fs d0).fs.existsPath d = true
    · exact ih (sweep_step root fs d0).fs d hd h2
    · have hne : (sweep_step root fs d0).fs.existsPath d = false :=
        Bool.eq_false_iff.mpr hd
      rcases sweep_step_cases root fs d0 with hid | ⟨hemp, hrem⟩
      · rw [hid] at hne
        rw [h1] at hne
        exact Bool.noConfusion hne
      · have hdd0 : d = d0 := by
          by_contra hne2
          rw [hrem] at hne
          rw [existsPath_removeExact_ne fs d0 d hne2] at hne
          rw [h1] at hne
          exact Bool.noConfusion hne
        subst hdd0
        have hnone : ∀ e ∈ fs.entries, isStrictPrefixB d e.path = false := by
          unfold is_dir_empty at hemp
          split at hemp
          · exact Bool.noConfusion hemp
          · rw [Bool.not_eq_true'] at hemp
            intro e he
            exact List.any_eq_false.mp hemp e he |> Bool.eq_false_iff.mpr
        intro e he
        exact hnone e (sweep_step_entries_sub root fs d e
          (sweep_dirs_entries_sub root ds (sweep_step root fs d).fs e he))

/-- C5: the empty-directory sweep never removes the scan root; every
directory it removes has no surviving entry beneath it in the final
state (emptiness is re-checked at removal time); and on the spec's
`a/b/c` scenario the deepest-first sweep removes `c` and then the
now-empty `b`, retaining the root `a`. -/
theorem sweep_safety (fs : FS) (root d : FsPath) :
    (fs.existsPath root = true → (remove_empty_dirs fs root).fs.existsPath root = true)
    ∧ (fs.existsPath d = true → (remove_empty_dirs fs root).fs.existsPath d = false →
        ∀ e ∈ (remove_empty_dirs fs root).fs.entries, isStrictPrefixB d e.path = false)
    ∧ remove_empty_dirs abcFS ["a"]
        = { fs := abcAfterFS, emptied := 2,
            lines := [removed_empty_line ["a", "b", "c"], removed_empty_line ["a", "b"]] } := by
  refine ⟨?_, ?_, ?_⟩
  · intro h
    unfold remove_empty_dirs
    exact sweep_dirs_keeps_root root _ fs h
  · intro h1 h2
    unfold remove_empty_dirs at h2 ⊢
    exact sweep_dirs_removed_was_empty root _ fs d h1 h2
  · decide

/-- Witness for C5: in the `a/b/c` scenario the root survives, and the
removed directory `a/b` has no surviving entry beneath it. -/
theorem sweep_safety_witness :
    (remove_empty_dirs abcFS ["a"]).fs.existsPath ["a"] = true
    ∧ (∀ e ∈ (remove_empty_dirs abcFS ["a"]).fs.entries,
        isStrictPrefixB ["a", "b"] e.path = false) :=
  ⟨(sweep_safety abcFS ["a"] ["a", "b"]).1 (by decide),
    (sweep_safety abcFS ["a"] ["a", "b"]).2.1 (by decide) (by decide)⟩

/-! ### C9 -/

theorem is_dir_empty_unreadable (fs : FS) (d : FsPath)
    (h : fs.unreadable.contains d = true) : is_dir_empty fs d = false := by
  unfold is_dir_empty
  rw [if_pos h]

theorem sweep_step_unreadable_id (root : FsPath) (fs : FS) (d : FsPath)
    (h : fs.unreadable.contains d = true) :
    sweep_step root fs d = { fs := fs, emptied := 0, lines := [] } := by
  unfold sweep_step
  rw [if_neg]
  rw [is_dir_empty_unreadable fs d h]
  simp

theorem sweep_dirs_keeps_unreadable (root : FsPath) (ds : List FsPath) :
    ∀ (fs : FS) (d : FsPath), fs.unreadable.contains d = true →
      (sweep_dirs root fs ds).fs.existsPath d = fs.existsPath d := by
  induction ds with
  | nil => intro fs d _; rfl
  | cons d0 ds ih =>
    intro fs d h
    simp only [sweep_dirs]
    by_cases hdd : d0 = d
    · have hid : sweep_step root fs d0 = { fs := fs, emptied := 0, lines := [] } := by
        rw [hdd]
        exact sweep_step_unreadable_id root fs d h
      rw [hid]
      exact ih fs d h
    · rcases sweep_step_cases root fs d0 with hid | ⟨_, hrem⟩
      · rw [hid]
        exact ih fs d h
      · rw [hrem]
        have hun : (fs.removeExact d0).unreadable.contains d = true := h
        rw [ih (fs.removeExact d0) d hun]
        exact existsPath_removeExact_ne fs d0 d (fun hq => hdd hq.symm)

/-- C9: a directory whose contents cannot be listed is reported non-empty
by `is_dir_empty`, and the empty-directory sweep therefore never removes
it (its presence in the snapshot is unchanged by the sweep). -/
theorem unreadable_never_pruned (fs : FS) (root d : FsPath)
    (h : fs.unreadable.contains d = true) :
    is_dir_empty fs d = false
    ∧ (remove_empty_dirs fs root).fs.existsPath d = fs.existsPath d := by
  refine ⟨is_dir_empty_unreadable fs d h, ?_⟩
  unfold remove_empty_dirs
  exact sweep_dirs_keeps_unreadable root _ fs d h

/-- Witness for C9: the unlistable directory `r/u` is judged non-empty
and survives the sweep. -/
theorem unreadable_never_pruned_witness :
    is_dir_empty unreadableFS ["r", "u"] = false
    ∧ (remove_empty_dirs unreadableFS ["r"]).fs.existsPath ["r", "u"]
        = unreadableFS.existsPath ["r", "u"] :=
  unreadable_never_pruned unreadableFS ["r"] ["r", "u"] (by decide)

/-! ### C6 -/

/-- C6 (documenting the exit-status slip): on a missing root and on a
non-directory root `main` returns 1, but the module entry discards the
return value, so the process exit status is 0 — the claimed non-zero
status is produced only for a non-compiling pattern, where `exit(2)` is
called inside `make_rules`. -/
theorem exit_status_discarded :
    (main_run emptyFS ["r"] argsPreview false).outcome = Outcome.ret 1
    ∧ process_exit (main_run emptyFS ["r"] argsPreview false).outcome = 0
    ∧ (main_run fileRootFS ["r"] argsPreview false).outcome = Outcome.ret 1
    ∧ process_exit (main_run fileRootFS ["r"] argsPreview false).outcome = 0
    ∧ (main_run exFS ["r"] argsBadPattern false).outcome = Outcome.exited 2
    ∧ process_exit (main_run exFS ["r"] argsBadPattern false).outcome = 2 :=
  ⟨rfl, rfl, rfl, rfl, rfl, rfl⟩

/-! ### C7 -/

theorem getLast_two (l : List String) (a b : String) :
    (l ++ [a, b]).getLast? = some b ∧ (l ++ [a, b]).dropLast.getLast? = some a := by
  have h : l ++ [a, b] = (l ++ [a]) ++ [b] := by simp
  constructor
  · rw [h]
    exact List.getLast?_concat _
  · rw [h, List.dropLast_concat]
    exact List.getLast?_concat _

theorem main_run_act (fs : FS) (root : FsPath) (args : Args) (ans : Bool) (rules : Rules)
    (hy : args.yes = true) (hnp : args.no_prompt = true) (hre : args.remove_empty_dirs = true)
    (hex : fs.existsPath root = true) (hdir : fs.isDirAt root = true)
    (hmk : make_rules (eff_names args) (eff_exts args) args.patterns = Except.ok rules)
    (hempty : (find_targets fs root rules args.max_depth).isEmpty = false) :
    main_run fs root args ans
      = { outcome := Outcome.ret 0,
          fs := (remove_empty_dirs
            (delete_targets fs (find_targets fs root rules args.max_depth)).fs root).fs,
          output := ((found_header (find_targets fs root rules args.max_depth).length
                :: (find_targets fs root rules args.max_depth).map target_line)
              ++ (delete_targets fs (find_targets fs root rules args.max_depth)).lines
              ++ (remove_empty_dirs
                (delete_targets fs (find_targets fs root rules args.max_depth)).fs root).lines)
            ++ [done_prune_line
                  (delete_targets fs (find_targets fs root rules args.max_depth)).removed
                  (remove_empty_dirs
                    (delete_targets fs (find_targets fs root rules args.max_depth)).fs
                    root).emptied,
                clean_line] } := by
  simp only [main_run, hex, hdir, hmk, hempty, hy, hnp, hre, Bool.not_true, Bool.and_false,
    if_false, Bool.false_eq_true, if_true]

/-- C7 counterexample: two acting runs whose deletion phases differ in
failure count (0 versus 1) print the same summary line and the same
closing line, so the summary cannot contain the failed count; the last
line is moreover the closing slogan, with the summary immediately before
it. -/
theorem summary_has_no_failed_count :
    (delete_targets oneTmpFS (find_targets oneTmpFS ["r"] ⟨["zzz"], ["tmp"], []⟩ none)).failed = 0
    ∧ (delete_targets lockedTmpFS
        (find_targets lockedTmpFS ["r"] ⟨["zzz"], ["tmp"], []⟩ none)).failed = 1
    ∧ (main_run oneTmpFS ["r"] argsAct false).output.getLast?
        = (main_run lockedTmpFS ["r"] argsAct false).output.getLast?
    ∧ (main_run oneTmpFS ["r"] argsAct false).output.dropLast.getLast?
        = (main_run lockedTmpFS ["r"] argsAct false).output.dropLast.getLast? := by
  refine ⟨rfl, rfl, rfl, rfl⟩

/-- C7 as amended: after an acting run with pruning enabled, the console
report ends with the fixed closing line, immediately preceded by a
summary line carrying the removed and pruned counts (no failed count is
part of the summary; failures are reported per entry), where the removed
count is the number of targets successfully removed (successes and
failures partition the batch) and the pruned count is the number of
directories the sweep removed. -/
theorem summary_line_content (fs : FS) (root : FsPath) (args : Args) (ans : Bool) (rules : Rules)
    (hy : args.yes = true) (hnp : args.no_prompt = true) (hre : args.remove_empty_dirs = true)
    (hex : fs.existsPath root = true) (hdir : fs.isDirAt root = true)
    (hmk : make_rules (eff_names args) (eff_exts args) args.patterns = Except.ok rules)
    (hempty : (find_targets fs root rules args.max_depth).isEmpty = false) :
    (main_run fs root args ans).output.getLast? = some clean_line
    ∧ (main_run fs root args ans).output.dropLast.getLast?
        = some (done_prune_line
            (delete_targets fs (find_targets fs root rules args.max_depth)).removed
            (remove_empty_dirs
              (delete_targets fs (find_targets fs root rules args.max_depth)).fs root).emptied)
    ∧ (delete_targets fs (find_targets fs root rules args.max_depth)).removed
        + (delete_targets fs (find_targets fs root rules args.max_depth)).failed
        = (find_targets fs root rules args.max_depth).length := by
  have hout := main_run_act fs root args ans rules hy hnp hre hex hdir hmk hempty
  have hlast := getLast_two
    ((found_header (find_targets fs root rules args.max_depth).length
        :: (find_targets fs root rules args.max_depth).map target_line)
      ++ (delete_targets fs (find_targets fs root rules args.max_depth)).lines
      ++ (remove_empty_dirs
        (delete_targets fs (find_targets fs root rules args.max_depth)).fs root).lines)
    (done_prune_line
      (delete_targets fs (find_targets fs root rules args.max_depth)).removed
      (remove_empty_dirs
        (delete_targets fs (find_targets fs root rules args.max_depth)).fs root).emptied)
    clean_line
  refine ⟨?_, ?_, (delete_targets_total fs (find_targets fs root rules args.max_depth)).1⟩
  · rw [hout]
    exact hlast.1
  · rw [hout]
    exact hlast.2

/-- Witness for the amended C7 on the example tree with the acting,
pruning configuration. -/
theorem summary_line_content_witness :
    (main_run oneTmpFS ["r"] argsAct true).output.getLast? = some clean_line
    ∧ (main_run oneTmpFS ["r"] argsAct true).output.dropLast.getLast?
        = some (done_prune_line
            (delete_targets oneTmpFS
              (find_targets oneTmpFS ["r"] ⟨["zzz"], ["tmp"], []⟩ none)).removed
            (remove_empty_dirs
              (delete_targets oneTmpFS
                (find_targets oneTmpFS ["r"] ⟨["zzz"], ["tmp"], []⟩ none)).fs ["r"]).emptied)
    ∧ (delete_targets oneTmpFS
          (find_targets oneTmpFS ["r"] ⟨["zzz"], ["tmp"], []⟩ none)).removed
        + (delete_targets oneTmpFS
            (find_targets oneTmpFS ["r"] ⟨["zzz"], ["tmp"], []⟩ none)).failed
        = (find_targets oneTmpFS ["r"] ⟨["zzz"], ["tmp"], []⟩ none).length :=
  summary_line_content oneTmpFS ["r"] argsAct true ⟨["zzz"], ["tmp"], []⟩
    rfl rfl rfl (by decide) (by decide) rfl (by decide)

/-! ### C10 -/

theorem toNat_lower_shift (n : Nat) (h1 : 65 ≤ n) (h2 : n ≤ 90) :
    (Char.ofNat (n + 32)).toNat = n + 32 := by
  interval_cases n <;> decide

theorem lowerChar_dot_iff (c : Char) : lowerChar c = '.' ↔ c = '.' := by
  constructor
  · intro h
    unfold lowerChar at h
    split at h
    · next hr =>
      have hv := toNat_lower_shift c.toNat hr.1 hr.2
      rw [h] at hv
      simp only [show Char.toNat '.' = 46 from rfl] at hv
      omega
    · exact h
  · intro h
    subst h
    decide

theorem dot_pred_eq :
    ((fun c => decide (c ≠ '.')) ∘ lowerChar) = (fun c : Char => decide (c ≠ '.')) := by
  funext c
  simp only [Function.comp_apply]
  exact decide_eq_decide.mpr (not_congr (lowerChar_dot_iff c))

theorem isEmpty_map_lower (l : List Char) : (l.map lowerChar).isEmpty = l.isEmpty := by
  cases l
  · rfl
  · rfl

theorem suffix_core_map (cs : List Char) :
    suffix_core (cs.map lowerChar) = (suffix_core cs).map lowerChar := by
  simp only [suffix_core]
  rw [show (cs.map lowerChar).reverse = cs.reverse.map lowerChar from (List.map_reverse _ _).symm]
  rw [List.takeWhile_map, List.dropWhile_map, dot_pred_eq]
  cases hdw : cs.reverse.dropWhile (fun c => decide (c ≠ '.')) with
  | nil => rfl
  | cons x rpre =>
    simp only [List.map_cons]
    rw [isEmpty_map_lower, isEmpty_map_lower]
    by_cases hc : (rpre.isEmpty
        || (cs.reverse.takeWhile (fun c => decide (c ≠ '.'))).isEmpty) = true
    · rw [if_pos hc, if_pos hc]
      rfl
    · rw [if_neg hc, if_neg hc]
      simp only [List.map_cons]
      rw [show lowerChar '.' = '.' from by decide]
      rw [show ((cs.reverse.takeWhile (fun c => decide (c ≠ '.'))).map lowerChar).reverse
        = ((cs.reverse.takeWhile (fun c => decide (c ≠ '.'))).reverse).map lowerChar
        from (List.map_reverse _ _).symm]

theorem strip_core_map_congr (l l' : List Char) (h : l.map lowerChar = l'.map lowerChar) :
    (strip_core l).map lowerChar = (strip_core l').map lowerChar := by
  cases l with
  | nil =>
    cases l' with
    | nil => rfl
    | cons c' cs' => exact absurd h (by simp)
  | cons c cs =>
    cases l' with
    | nil => exact absurd h (by simp)
    | cons c' cs' =>
      simp only [List.map_cons, List.cons.injEq] at h
      obtain ⟨hc, hcs⟩ := h
      simp only [strip_core]
      by_cases hdot : c = '.'
      · have hdot' : c' = '.' := by
          rw [← lowerChar_dot_iff c']
          rw [← hc, hdot]
          decide
        rw [if_pos hdot, if_pos hdot']
        exact hcs
      · have hdot' : c' ≠ '.' := by
          intro habs
          apply hdot
          rw [← lowerChar_dot_iff c]
          rw [hc, habs]
          decide
        rw [if_neg hdot, if_neg hdot']
        simp only [List.map_cons]
        rw [hc, hcs]

theorem path_suffix_lower (s : String) :
    path_suffix (to_lower s) = to_lower (path_suffix s) := by
  unfold path_suffix to_lower
  exact congrArg String.mk (suffix_core_map s.data)

theorem file_ext_congr (n n' : String) (h : to_lower n = to_lower n') :
    file_ext n = file_ext n' := by
  unfold file_ext
  have hsuf : to_lower (path_suffix n) = to_lower (path_suffix n') := by
    rw [← path_suffix_lower, ← path_suffix_lower, h]
  have hd : (path_suffix n).data.map lowerChar = (path_suffix n').data.map lowerChar :=
    congrArg String.data hsuf
  exact congrArg String.mk (strip_core_map_congr _ _ hd)

theorem contains_singleton (a b : String) : [a].contains b = (b == a) := by
  cases hb : b == a
  · simp only [List.contains, List.elem, hb]
  · simp only [List.contains, List.elem, hb]

/-- C10: only extension matching is case-insensitive.  Spelling the
configured extensions in any case with the same lowering yields the same
rules behaviour; for extension-only rules the case of the file name is
irrelevant; exact-name matching is literal (hence case-sensitive) string
equality; and patterns are searched against the base name exactly as
supplied. -/
theorem case_sensitivity (names exts exts2 : List String) (pats : List Regex)
    (r r2 : Rules) (name n2 : String) (f : Bool)
    (h1 : make_rules names exts pats = Except.ok r)
    (h2 : make_rules names exts2 pats = Except.ok r2)
    (hlow : exts.map to_lower = exts2.map to_lower)
    (hn : to_lower n2 = to_lower name) :
    (r.matches name f = r2.matches name f)
    ∧ (Rules.matches { name_exact := [], ext_lower := r.ext_lower, regexes := [] } n2 f
        = Rules.matches { name_exact := [], ext_lower := r.ext_lower, regexes := [] } name f)
    ∧ (Rules.matches { name_exact := [n2], ext_lower := [], regexes := [] } name f
        = (name == n2))
    ∧ (Rules.matches { name_exact := [], ext_lower := [], regexes := r.regexes } name f
        = r.regexes.any (fun p => p name)) := by
  unfold make_rules at h1 h2
  cases hcp : compile_patterns pats with
  | error c =>
    rw [hcp] at h1
    exact Except.noConfusion h1
  | ok regexes =>
    rw [hcp] at h1 h2
    injection h1 with h1
    injection h2 with h2
    subst h1
    subst h2
    refine ⟨?_, ?_, ?_, ?_⟩
    · unfold Rules.matches
      simp only [hlow]
    · unfold Rules.matches
      rw [file_ext_congr n2 name hn]
      rfl
    · unfold Rules.matches
      rw [contains_singleton n2 name]
      cases hb : name == n2
      · rw [show ([] : List String).contains (file_ext name) = false from rfl]
        rw [Bool.and_false, Bool.and_false]
        simp
      · simp
    · unfold Rules.matches
      rw [show ([] : List String).contains name = false from rfl]
      rw [show ([] : List String).contains (file_ext name) = false from rfl]
      rw [Bool.and_false, Bool.and_false]
      simp

/-- Witness for C10 at concrete inputs: upper-cased configuration and an
upper-cased file name behave as the lower-cased ones for extension
matching, while exact-name matching distinguishes the spellings. -/
theorem case_sensitivity_witness :
    ((Rules.mk ["A"] ["tmp"] []).matches "x.tmp" true
        = (Rules.mk ["A"] ["tmp"] []).matches "x.tmp" true)
    ∧ (Rules.matches { name_exact := [], ext_lower := ["tmp"], regexes := [] } "X.TMP" true
        = Rules.matches { name_exact := [], ext_lower := ["tmp"], regexes := [] } "x.tmp" true)
    ∧ (Rules.matches { name_exact := ["X.TMP"], ext_lower := [], regexes := [] } "x.tmp" true
        = ("x.tmp" == "X.TMP"))
    ∧ (Rules.matches { name_exact := [], ext_lower := [], regexes := [] } "x.tmp" true
        = ([] : List (String → Bool)).any (fun p => p "x.tmp")) :=
  case_sensitivity ["A"] ["TMP"] ["tmp"] [] (Rules.mk ["A"] ["tmp"] [])
    (Rules.mk ["A"] ["tmp"] []) "x.tmp" "X.TMP" true rfl rfl rfl rfl
